import Mathlib

/-!
Verification of the Credit_Manager installment allocation & balance engine.

Shallow embedding of the payment-splitting, partial-allocation, advance
forgiveness, bonus/penalty synthesis, rounding reconciliation, installment
generation and document distribution logic of the repository
(`str/collections/*.py`, `str/database/structure/installments/main.py`,
`str/database/structure/credits.py`, `str/balance/main.py`).

Money amounts are modelled as exact rationals (`ℚ`); dates as integers
(`ℤ`, Periods are totally ordered and only compared); DataFrames as lists
of rows in frame order.  A balance-snapshot row (one row of the frame
returned by `balance(date)`, indexed by installment ID) is `InstRow`;
`split` tags its fully-covered output with a `Type_ID` column, giving
`TRow`; `basic_formatting` produces canonical collection rows `CollRow`
(columns Installment_ID, Date, Type_ID, Capital, Interest, IVA, Total).
-/

namespace CreditManager

/-- One row of the balance snapshot (`balance(date)` output, index `ID`):
columns Credit_ID, Due_Date and the four money columns. -/
structure InstRow where
  id : ℕ
  creditId : ℕ
  dueDate : ℤ
  capital : ℚ
  interest : ℚ
  iva : ℚ
  total : ℚ
  deriving Repr, DecidableEq

/-- A snapshot row carrying a `Type_ID` column (as assigned by `split` to
`df_up` and by `first_inst` to the partial row). -/
structure TRow where
  row : InstRow
  typeId : ℕ
  deriving Repr, DecidableEq

/-- A canonical collection row (`coll_columns` of `collections/general.py`):
Installment_ID, Date, Type_ID, Capital, Interest, IVA, Total. -/
structure CollRow where
  instId : ℕ
  date : ℤ
  typeId : ℕ
  capital : ℚ
  interest : ℚ
  iva : ℚ
  total : ℚ
  deriving Repr, DecidableEq

/-- Collection-type catalog codes (the `collection_types` table assigns a
stable distinct numeric code to each tag; concrete values are irrelevant,
only their identity is used, as in `str/collections/type_coll.py`). -/
def common_id : ℕ := 1

def advance_id : ℕ := 2

def penalty_id : ℕ := 3

def round_id : ℕ := 4

def bonus_id : ℕ := 5

/-- `df.sort_values(by=["Due_Date"])`: a comparison sort on the due-date
column (the pandas default kind is unstable, so no tie order is relied on
anywhere; insertion sort is one such comparison sort). -/
def sortByDue (rows : List InstRow) : List InstRow :=
  rows.insertionSort (fun a b => a.dueDate ≤ b.dueDate)

/-- `df["Cum_Total"] = df["Total"].cumsum()`: annotate each row with the
running cumulative Total, starting from `acc`. -/
def withCum (acc : ℚ) : List InstRow → List (InstRow × ℚ)
  | [] => []
  | r :: rs => (r, acc + r.total) :: withCum (acc + r.total) rs

/-- `split(df, amount, type_id)` of `str/collections/general.py`:
sort by due date, compute cumulative totals, `df_up` are the rows with
`Cum_Total <= amount` (tagged with `type_id`), `df_down` the rows with
`Cum_Total > amount`, and `surplus = amount - df_up["Total"].sum()`. -/
def split (df : List InstRow) (amount : ℚ) (type_id : ℕ) :
    List TRow × List InstRow × ℚ :=
  let s := sortByDue df
  let ann := withCum 0 s
  let df_up := (ann.filter (fun p => decide (p.2 ≤ amount))).map
    (fun p => ({ row := p.1, typeId := type_id } : TRow))
  let df_down := (ann.filter (fun p => !decide (p.2 ≤ amount))).map (fun p => p.1)
  (df_up, df_down, amount - (df_up.map (fun t => t.row.total)).sum)

/-- `first_inst(df_down, surplus, type_id)` of `str/collections/general.py`:
if `df_down` is empty or the surplus is 0 return an empty frame; otherwise
take the first row of `df_down` (smallest index, i.e. earliest due after
`split`'s sort); if its Capital exceeds the surplus the partial payment is
principal-only, else Capital is fully paid and the remainder is split
Interest `= (surplus - capital)/1.21`, IVA `= surplus - (capital + interest)`;
Total is set to the surplus, the row is tagged, and rows with `Total == 0`
are dropped. -/
def first_inst (df_down : List InstRow) (surplus : ℚ) (type_id : ℕ) :
    List TRow :=
  match df_down with
  | [] => []
  | r :: _ =>
    if surplus = 0 then []
    else
      let r' : InstRow :=
        if r.capital > surplus then
          { r with capital := surplus, interest := 0, iva := 0, total := surplus }
        else
          let interest := (surplus - r.capital) / 1.21
          { r with interest := interest, iva := surplus - (r.capital + interest),
                   total := surplus }
      if r'.total = 0 then [] else [{ row := r', typeId := type_id }]

/-- `basic_formatting(df, date)` of `str/collections/general.py`: turn the
index (installment ID) into the `Installment_ID` column, stamp the payment
date on every row, and keep the canonical collection columns. -/
def basic_formatting (rows : List TRow) (date : ℤ) : List CollRow :=
  rows.map (fun t =>
    { instId := t.row.id, date := date, typeId := t.typeId,
      capital := t.row.capital, interest := t.row.interest,
      iva := t.row.iva, total := t.row.total })

/-- The due condition of the advance interest/IVA forgiveness:
`df["Due_Date"] >= date` at credit level (`collections/advance.py`, strict =
false) and `df["Due_Date"] > date` at document level
(`collections/documents.py`, strict = true). -/
def not_yet_due (strict : Bool) (date : ℤ) (r : InstRow) : Bool :=
  if strict then decide (date < r.dueDate) else decide (date ≤ r.dueDate)

/-- The advance-policy pre-split adjustment of `collections/advance.py`
(lines 159-164) and `collections/documents.py` (lines 110-115): zero the
Interest and IVA columns of every not-yet-due row, then recompute the Total
column of EVERY row as `Capital + Interest + IVA` (the two column
assignments are fused into one row-wise pass). -/
def zero_future (strict : Bool) (date : ℤ) (rows : List InstRow) : List InstRow :=
  rows.map (fun r =>
    let r1 := if not_yet_due strict date r then { r with interest := 0, iva := 0 } else r
    { r1 with total := r1.capital + r1.interest + r1.iva })

/-- `round_balance(date)` of `str/collections/round.py` restricted to its
selection and row-building logic: from the balance snapshot keep the rows
with `df["Total"].abs() != 0` and `df["Total"] < 0.1`, and build a
REDONDEO-typed collection row (same four money fields) dated `date` for
each. -/
def round_balance (rows : List InstRow) (date : ℤ) : List CollRow :=
  (rows.filter (fun r => decide (|r.total| ≠ 0 ∧ r.total < 0.1))).map
    (fun r => { instId := r.id, date := date, typeId := round_id,
                capital := r.capital, interest := r.interest, iva := r.iva,
                total := r.total })

/-- `build_bonus_rows(df_original, df_result, advance_id, bonus_id, date)` of
`str/collections/advance.py`: merge the pre-collection installments with the
advance-typed result rows on Installment_ID, subtract the collected Capital
and Interest from the originals, keep the rows with remaining Capital equal
to 0 and remaining Interest nonzero, and emit for each a bonus-typed
collection row whose Total is `remaining Capital + remaining Interest +
ORIGINAL IVA` (the collected IVA is never subtracted), formatted with the
payment date. -/
def build_bonus_rows (df_original : List InstRow) (df_result : List CollRow)
    (advId bonusId : ℕ) (date : ℤ) : List CollRow :=
  ((df_original.flatMap (fun o =>
      (df_result.filter (fun c => c.typeId == advId && c.instId == o.id)).map
        (fun c => (o, o.capital - c.capital, o.interest - c.interest)))).filter
    (fun x => decide (x.2.1 = 0 ∧ x.2.2 ≠ 0))).map
    (fun x => { instId := x.1.id, date := date, typeId := bonusId,
                capital := x.2.1, interest := x.2.2, iva := x.1.iva,
                total := x.2.1 + x.2.2 + x.1.iva })

/-- The computed (non-key) fields of an installment record, as set by
`inst_french` / `inst_german` / `inst_penalty` in
`str/database/structure/installments/tools.py` (`_to_dict` of
`installments/main.py` minus the Credit_ID / Inst_Num keys; the
Settlement_Date always equals the due date and is dropped by `balance`). -/
structure InstData where
  ownerId : ℕ
  dueDate : ℤ
  capital : ℚ
  interest : ℚ
  iva : ℚ
  total : ℚ
  deriving Repr, DecidableEq

/-- A row of the stored `installments` table, with its auto-assigned index
`id`. -/
structure StoredInst where
  id : ℕ
  creditId : ℕ
  instNum : ℕ
  data : InstData
  deriving Repr, DecidableEq

/-- `df.index.values.max()` over the installments table (0 for an empty
table; the table is never empty when this value is used). -/
def maxId (t : List StoredInst) : ℕ := (t.map (fun s => s.id)).foldr Nat.max 0

/-- The duplicate-detection mask of `Installment.__init__`:
`(df["Credit_ID"] == Credit_ID) & (df["Inst_Num"] == i)`. -/
def inst_matches (creditId i : ℕ) (s : StoredInst) : Bool :=
  s.creditId == creditId && s.instNum == i

/-- `Installment.__init__` of `str/database/structure/installments/main.py`
(lines 72-96), after the per-variant computation `d`: if a row for
`(Credit_ID, i)` already exists, return its stored ID without writing
(raising a fatal error when zero or more than one row matches the mask);
otherwise append the computed record (the SQL autoincrement index assigns
`max index + 1`, which the code reads back as `df.index.values.max()`). -/
def installment_init (table : List StoredInst) (creditId i : ℕ) (d : InstData) :
    Except String (ℕ × List StoredInst) :=
  let ex := table.filter (inst_matches creditId i)
  if ex.isEmpty then
    let newId := maxId table + 1
    .ok (newId, table ++ [{ id := newId, creditId := creditId, instNum := i, data := d }])
  else
    match ex with
    | [] => .error "Installment not found in database"
    | [m] => .ok (m.id, table)
    | _ :: _ :: _ => .error "Multiple installments found in database"

/-- `OUR_COMPANY_ID` of `str/constants.py` (opaque catalog value). -/
def OUR_COMPANY_ID : ℕ := 1

/-- `inst_penalty` of `str/database/structure/installments/tools.py`:
Capital 0, Interest `= cap / 1.21`, IVA `= cap - Interest`, Total `= cap`;
due `i - 1` periods after the first due month (the day-28 convention is
abstracted into the month offset). -/
def inst_penalty (cap : ℚ) (i : ℕ) (first_due : ℤ) : InstData :=
  { ownerId := OUR_COMPANY_ID, dueDate := first_due + ((i - 1 : ℕ) : ℤ),
    capital := 0, interest := cap / 1.21, iva := cap - cap / 1.21, total := cap }

/-- The installment-generation loop of `Credit.__init__`
(`str/database/structure/credits.py` lines 91-95):
`[Installment(self.ID, i) for i in range(1, Term + 1)]`, threading the
stored table through each `Installment.__init__` call. -/
def gen_insts (creditId : ℕ) (mk : ℕ → InstData) :
    List ℕ → List StoredInst → Except String (List ℕ × List StoredInst)
  | [], t => .ok ([], t)
  | i :: rest, t =>
    match installment_init t creditId i (mk i) with
    | .error e => .error e
    | .ok (n, t') =>
      match gen_insts creditId mk rest t' with
      | .error e => .error e
      | .ok (ns, t'') => .ok (n :: ns, t'')

/-- The rows appended to the installments table by a run of `gen_insts`
starting from a table whose maximum index is `base`: the k-th created row
receives the auto-incremented index `base + k`. -/
def buildRows (creditId : ℕ) (mk : ℕ → InstData) : ℕ → List ℕ → List StoredInst
  | _, [] => []
  | base, i :: rest => ⟨base + 1, creditId, i, mk i⟩ :: buildRows creditId mk (base + 1) rest

/-- A row of the DataFrame returned by `penalty.new`
(`str/collections/penalty.py`): columns ID, Credit_ID, Inst_Num, the
installment data columns, and the penalty Type_ID. -/
structure PenRow where
  id : ℕ
  creditId : ℕ
  instNum : ℕ
  data : InstData
  typeId : ℕ
  deriving Repr, DecidableEq

/-- `penalty.new` of `str/collections/penalty.py`, generalized over the
`Term` that `Credit.__init__` would receive (the source calls `Credit`
with its default `Term = 1`; see `penalty_new`): create the penalty
credit's installments through the generation loop, then build the returned
rows from the in-memory `Installments` frame, assigning EVERY returned
row the ID `df_inst.index.max()` read from the table after insertion
(`new_penalty["ID"] = df_inst.index.max()`, line 37). -/
def penalty_new_gen (instTable : List StoredInst) (penCreditId : ℕ) (amount : ℚ)
    (first_due : ℤ) (term : ℕ) : Except String (List PenRow × List StoredInst) :=
  match gen_insts penCreditId (fun i => inst_penalty amount i first_due)
      (List.range' 1 term) instTable with
  | .error e => .error e
  | .ok (_, t') =>
    .ok ((List.range' 1 term).map (fun i =>
      { id := maxId t', creditId := penCreditId, instNum := i,
        data := inst_penalty amount i first_due, typeId := penalty_id }), t')

/-- `penalty.new` as written in the source: `Credit(...)` is called without
a `Term` argument, so the penalty credit always has exactly one
installment. -/
def penalty_new (instTable : List StoredInst) (penCreditId : ℕ) (amount : ℚ)
    (first_due : ℤ) : Except String (List PenRow × List StoredInst) :=
  penalty_new_gen instTable penCreditId amount first_due 1

/-- Conversion of the penalty DataFrame rows to canonical collection rows,
as performed by `basic_formatting` after
`concat([df_up.reset_index(drop=False), new_penalty])` in
`collections/common.py`: the penalty frame's `ID` column becomes
`Installment_ID`, the payment date is stamped on, and the money columns are
kept. -/
def penCollRows (pen : List PenRow) (date : ℤ) : List CollRow :=
  pen.map (fun p => { instId := p.id, date := date, typeId := p.typeId,
                      capital := p.data.capital, interest := p.data.interest,
                      iva := p.data.iva, total := p.data.total })

/-- The observable outcome of a credit-level collection call:
`result` is the returned DataFrame, or the exception raised;
`penaltyArg` is the amount passed to `penalty.new` when it was invoked;
`warning` is the surplus printed by the no-persistence warning branch. -/
structure CollectOutcome where
  result : Except String (List CollRow)
  penaltyArg : Option ℚ
  warning : Option ℚ
  deriving Repr

/-- `credit(credit_id, amount, date, save)` of `str/collections/common.py`
(lines 54-139).  `scope` is the balance snapshot already restricted to the
credit (`df["Credit_ID"] == credit_id`); the function further keeps the
rows with positive pending Total, splits the payment, and handles surplus:

* remaining installments exist → allocate the surplus to the next one;
* no remaining installments and `save` → `penalty(credit_id, amount)` —
  the source passes the FULL PAYMENT `amount`, not the surplus
  (common.py line 115), and no date, unlike `advance.py` line 174 which
  passes `surplus` — then the penalty rows are merged and persisted;
* no remaining installments and not `save` → print the warning naming the
  surplus and fall through WITHOUT reassigning `df`, so `basic_formatting`
  receives the raw balance scope, which has no `Type_ID` column, and its
  canonical column selection `df[coll_columns]` raises a `KeyError`
  (modelled as the error result).

`instTable` is the stored installments table and `penCreditId` the ID the
penalty credit would receive, both only used by the penalty branch. -/
def common_credit (scope : List InstRow) (amount : ℚ) (date : ℤ) (save : Bool)
    (instTable : List StoredInst) (penCreditId : ℕ) : CollectOutcome :=
  let df := scope.filter (fun r => decide (0 < r.total))
  let s := split df amount common_id
  if 0 < s.2.2 then
    if ¬ s.2.1.isEmpty then
      { result := .ok (basic_formatting (s.1 ++ first_inst s.2.1 s.2.2 common_id) date),
        penaltyArg := none, warning := none }
    else if save then
      match penalty_new instTable penCreditId amount 0 with
      | .error e => { result := .error e, penaltyArg := some amount, warning := none }
      | .ok (pen, _) =>
        { result := .ok (basic_formatting s.1 date ++ penCollRows pen date),
          penaltyArg := some amount, warning := none }
    else
      { result := .error "KeyError: Type_ID", penaltyArg := none,
        warning := some s.2.2 }
  else
    { result := .ok (basic_formatting s.1 date), penaltyArg := none, warning := none }

/-- Modelled from the spec: `get_client_balance_by_document` lives in
`str/collections/tools.py`, which is absent from the source tree (only
its import statement in `str/collections/documents.py` remains).  Per
§4.6 of the spec the
payer resolves to "a set of eligible credit identifiers — disbursed on or
before the reference date" and the function "build[s] the balance snapshot
across all eligible credits": it restricts the balance rows to those whose
credit is eligible. -/
def get_client_balance_by_document (balanceRows : List InstRow)
    (eligible : List ℕ) : List InstRow :=
  balanceRows.filter (fun r => decide (r.creditId ∈ eligible))

/-- The outcome of `document()` in `str/collections/documents.py`: the
per-credit collection calls made (`credit id, amount` pairs, the residual
surplus call last) and the concatenated, zero-filtered result rows. -/
structure DocOutcome where
  calls : List (ℕ × ℚ)
  rows : List CollRow
  deriving Repr

/-- The distinct Credit_IDs of a tagged frame (`df.groupby("Credit_ID")`
group keys; pandas orders them ascending, the embedding keeps first
occurrence order — only the key set and its maximum are relied upon). -/
def groupKeys (l : List TRow) : List ℕ := (l.map (fun t => t.row.creditId)).dedup

/-- `df.groupby("Credit_ID")[["Total"]].sum()` for one group key. -/
def groupTotal (l : List TRow) (k : ℕ) : ℚ :=
  ((l.filter (fun t => t.row.creditId == k)).map (fun t => t.row.total)).sum

/-- The working frame of `documents.document`: for ANTICIPADA the
future-interest/IVA zeroing (strictly-later due dates) is applied first. -/
def doc_df (scope : List InstRow) (isAdvance : Bool) (date : ℤ) : List InstRow :=
  if isAdvance then zero_future true date scope else scope

/-- The type tag stamped by `documents.document`. -/
def doc_tid (isAdvance : Bool) : ℕ := if isAdvance then advance_id else common_id

/-- The document-level covered and partial rows:
`concat([df_up, first_inst(df_down, surplus, type_id)])` of
`documents.py` lines 122-133. -/
def doc_rowsAll (scope : List InstRow) (isAdvance : Bool) (amount : ℚ)
    (date : ℤ) : List TRow :=
  (split (doc_df scope isAdvance date) amount (doc_tid isAdvance)).1 ++
    first_inst (split (doc_df scope isAdvance date) amount (doc_tid isAdvance)).2.1
      (split (doc_df scope isAdvance date) amount (doc_tid isAdvance)).2.2
      (doc_tid isAdvance)

/-- The per-credit aggregation `df.groupby("Credit_ID")[["Total"]].sum()`
(documents.py line 136). -/
def doc_agg (scope : List InstRow) (isAdvance : Bool) (amount : ℚ)
    (date : ℤ) : List (ℕ × ℚ) :=
  (groupKeys (doc_rowsAll scope isAdvance amount date)).map
    (fun k => (k, groupTotal (doc_rowsAll scope isAdvance amount date) k))

/-- The recomputed document-level surplus
`surplus = amount - df["Total"].sum()` (documents.py line 139). -/
def doc_surplus2 (scope : List InstRow) (isAdvance : Bool) (amount : ℚ)
    (date : ℤ) : ℚ :=
  amount - ((doc_agg scope isAdvance amount date).map (fun p => p.2)).sum

/-- `document(doc, doc_type, collection_type, amount, date, save)` of
`str/collections/documents.py` (lines 95-157), with the per-credit
collection dispatch (`common_coll` / `advance_coll`) abstracted as
`collFn`: split at document level, aggregate per credit, call the
per-credit collection for each aggregated amount, send any remaining
surplus to `df.index.max()` — the LARGEST CREDIT_ID AMONG THE AGGREGATED
GROUPS (line 149) — and drop rows with Total equal to 0 from the
concatenated output (line 155). -/
def documents_document (scope : List InstRow) (isAdvance : Bool) (amount : ℚ)
    (date : ℤ) (collFn : ℕ → ℚ → List CollRow) : DocOutcome :=
  let agg := doc_agg scope isAdvance amount date
  let surplus2 := doc_surplus2 scope isAdvance amount date
  let calls := if 0 < surplus2 then
      agg ++ [((groupKeys (doc_rowsAll scope isAdvance amount date)).foldr
        Nat.max 0, surplus2)]
    else agg
  { calls := calls,
    rows := (calls.flatMap (fun p => collFn p.1 p.2)).filter
      (fun b => decide (b.total ≠ 0)) }

example :
    split [⟨1, 1, 0, 50, 10, 2, 62⟩, ⟨2, 1, 1, 50, 8, 2, 60⟩] 62 common_id =
      ([⟨⟨1, 1, 0, 50, 10, 2, 62⟩, common_id⟩], [⟨2, 1, 1, 50, 8, 2, 60⟩], 0) := by
  norm_num [split, sortByDue, withCum, List.insertionSort, List.orderedInsert]

/-- Projecting the row out of a cumulative-total annotation recovers the list. -/

lemma withCum_map_fst (l : List InstRow) : ∀ acc : ℚ, (withCum acc l).map Prod.fst = l := by
  induction l with
  | nil => intro acc; rfl
  | cons r rs ih => intro acc; simp [withCum, ih]

/-- Every cumulative total is at least the starting accumulator when all row
totals are nonnegative. -/

lemma withCum_le_snd (l : List InstRow) : ∀ acc : ℚ, (∀ r ∈ l, 0 ≤ r.total) →
    ∀ p ∈ withCum acc l, acc ≤ p.2 := by
  induction l with
  | nil => intro acc _ p hp; simp [withCum] at hp
  | cons r rs ih =>
    intro acc h p hp
    have hr : 0 ≤ r.total := h r (by simp)
    simp only [withCum, List.mem_cons] at hp
    rcases hp with hp | hp
    · rw [hp]; simp; linarith
    · have := ih (acc + r.total) (fun x hx => h x (by simp [hx])) p hp
      linarith

/-- Splitting the annotated list at the payment boundary partitions it: the
rows at or under the boundary followed by the rows over it reassemble the
annotated list (cumulative totals are nondecreasing when row totals are
nonnegative). -/

lemma withCum_filter_partition (amount : ℚ) (l : List InstRow) :
    ∀ acc : ℚ, (∀ r ∈ l, 0 ≤ r.total) →
    (withCum acc l).filter (fun p => decide (p.2 ≤ amount)) ++
      (withCum acc l).filter (fun p => !decide (p.2 ≤ amount)) = withCum acc l := by
  induction l with
  | nil => intro acc _; rfl
  | cons r rs ih =>
    intro acc h
    have hrest : ∀ x ∈ rs, 0 ≤ x.total := fun x hx => h x (by simp [hx])
    by_cases hc : acc + r.total ≤ amount
    · simpa [withCum, List.filter_cons, hc] using ih (acc + r.total) hrest
    · have hnil : (withCum (acc + r.total) rs).filter
          (fun p => decide (p.2 ≤ amount)) = [] := by
        rw [List.filter_eq_nil_iff]
        intro p hp
        have := withCum_le_snd rs (acc + r.total) hrest p hp
        simp only [decide_eq_true_eq]
        intro hle
        exact hc (le_trans this hle)
      have hall : (withCum (acc + r.total) rs).filter
          (fun p => !decide (p.2 ≤ amount)) = withCum (acc + r.total) rs := by
        rw [List.filter_eq_self]
        intro p hp
        have := withCum_le_snd rs (acc + r.total) hrest p hp
        simp only [Bool.not_eq_eq_eq_not, Bool.not_true, decide_eq_false_iff_not]
        intro hle
        exact hc (le_trans this hle)
      simp [withCum, List.filter_cons, hc, hnil, hall]

/-- The totals of the covered rows sum to at most `amount - acc` when row
totals are nonnegative and the accumulator has not yet passed `amount`. -/

lemma withCum_filter_sum_le (amount : ℚ) (l : List InstRow) :
    ∀ acc : ℚ, (∀ r ∈ l, 0 ≤ r.total) → acc ≤ amount →
    (((withCum acc l).filter (fun p => decide (p.2 ≤ amount))).map
      (fun p => p.1.total)).sum ≤ amount - acc := by
  induction l with
  | nil => intro acc _ hacc; simp [withCum]; linarith
  | cons r rs ih =>
    intro acc h hacc
    have hrest : ∀ x ∈ rs, 0 ≤ x.total := fun x hx => h x (by simp [hx])
    by_cases hc : acc + r.total ≤ amount
    · have := ih (acc + r.total) hrest hc
      simp only [withCum, List.filter_cons]
      rw [if_pos (by simpa using hc)]
      simp only [List.map_cons, List.sum_cons]
      linarith
    · have hnil : (withCum (acc + r.total) rs).filter
          (fun p => decide (p.2 ≤ amount)) = [] := by
        rw [List.filter_eq_nil_iff]
        intro p hp
        have := withCum_le_snd rs (acc + r.total) hrest p hp
        simp only [decide_eq_true_eq]
        intro hle
        exact hc (le_trans this hle)
      simp [withCum, List.filter_cons, hc, hnil]
      linarith

/-- C1 (amended): with every row Total in the scope nonnegative and a
nonnegative payment amount, `split` conserves money
(`sum(Total of df_up) + surplus = amount`), the surplus is nonnegative,
the fully-covered rows followed by the remaining rows reassemble the
due-date-sorted scope (so the covered rows are an initial segment of the
sort order and the remaining rows are the untouched rest), the covered
rows are tagged with the requested type, and every remaining row is a row
of the original scope with all money fields unchanged. -/

lemma split_append (rows : List InstRow) (amount : ℚ) (tid : ℕ)
    (hpos : ∀ r ∈ rows, 0 ≤ r.total) :
    ((split rows amount tid).1.map TRow.row) ++ (split rows amount tid).2.1 =
      sortByDue rows := by
  have hperm : List.Perm (sortByDue rows) rows := List.perm_insertionSort _ rows
  have hs : ∀ r ∈ sortByDue rows, 0 ≤ r.total := fun r hr =>
    hpos r (hperm.mem_iff.mp hr)
  have hpart := withCum_filter_partition amount (sortByDue rows) 0 hs
  have h1 : ((split rows amount tid).1.map TRow.row) =
      ((withCum 0 (sortByDue rows)).filter (fun p => decide (p.2 ≤ amount))).map
        Prod.fst := by
    simp [split, List.map_map, Function.comp]
  have h2 : (split rows amount tid).2.1 =
      ((withCum 0 (sortByDue rows)).filter (fun p => !decide (p.2 ≤ amount))).map
        Prod.fst := rfl
  rw [h1, h2, ← List.map_append, hpart, withCum_map_fst]

/-- C1 (amended): with every row Total in the scope nonnegative and a
nonnegative payment amount, `split` conserves money
(`sum(Total of df_up) + surplus = amount`), the surplus is nonnegative,
the fully-covered rows followed by the remaining rows reassemble the
due-date-sorted scope (so the covered rows are an initial segment of the
sort order and the remaining rows are the untouched rest), the covered
rows are tagged with the requested type, and every remaining row is a row
of the original scope with all money fields unchanged. -/

theorem split_waterfall_spec (rows : List InstRow) (amount : ℚ) (tid : ℕ)
    (hpos : ∀ r ∈ rows, 0 ≤ r.total) (hamt : 0 ≤ amount) :
    ((split rows amount tid).1.map (fun t => t.row.total)).sum +
        (split rows amount tid).2.2 = amount ∧
    0 ≤ (split rows amount tid).2.2 ∧
    ((split rows amount tid).1.map TRow.row) ++ (split rows amount tid).2.1 =
        sortByDue rows ∧
    ((split rows amount tid).1.map TRow.row) <+: sortByDue rows ∧
    (∀ t ∈ (split rows amount tid).1, t.typeId = tid) ∧
    (∀ r ∈ (split rows amount tid).2.1, r ∈ rows) := by
  have hperm : List.Perm (sortByDue rows) rows := List.perm_insertionSort _ rows
  have hs : ∀ r ∈ sortByDue rows, 0 ≤ r.total := fun r hr =>
    hpos r (hperm.mem_iff.mp hr)
  refine ⟨by simp [split], ?_, split_append rows amount tid hpos,
    ⟨(split rows amount tid).2.1, split_append rows amount tid hpos⟩, ?_, ?_⟩
  · have hsum := withCum_filter_sum_le amount (sortByDue rows) 0 hs hamt
    simp only [split, List.map_map, Function.comp_def]
    simp only [sub_zero] at hsum
    linarith [hsum]
  · intro t ht
    simp only [split, List.mem_map] at ht
    obtain ⟨p, _, hp⟩ := ht
    simp [← hp]
  · intro r hr
    simp only [split, List.mem_map] at hr
    obtain ⟨p, hp, hpr⟩ := hr
    have hmem := List.mem_of_mem_filter hp
    have : p.1 ∈ sortByDue rows := by
      have := List.mem_map_of_mem Prod.fst hmem
      rwa [withCum_map_fst] at this
    exact hperm.mem_iff.mp (hpr ▸ this)

/-- C1 (counterexample): the claim as stated is false.  With the scope
`[(due 1, Total 5), (due 2, Total -5)]`, whose total is `0 ≥ 0`, the payment
amount `-1` yields surplus `-1 < 0` (refuting "the surplus is always ≥ 0"),
and the payment amount `0` yields a fully-covered set that is not an initial
segment of the due-date sort order (the second row is covered, the first is
not), refuting the strict-prefix clause. -/

theorem split_waterfall_claim_counterexample :
    (0 : ℚ) ≤ (([⟨1, 1, 1, 0, 0, 0, 5⟩, ⟨2, 1, 2, 0, 0, 0, -5⟩] :
        List InstRow).map InstRow.total).sum ∧
    (split [⟨1, 1, 1, 0, 0, 0, 5⟩, ⟨2, 1, 2, 0, 0, 0, -5⟩] (-1) common_id).2.2 < 0 ∧
    ¬ ((split [⟨1, 1, 1, 0, 0, 0, 5⟩, ⟨2, 1, 2, 0, 0, 0, -5⟩] 0 common_id).1.map
        TRow.row <+: sortByDue [⟨1, 1, 1, 0, 0, 0, 5⟩, ⟨2, 1, 2, 0, 0, 0, -5⟩]) := by
  refine ⟨by norm_num, ?_, ?_⟩
  · norm_num [split, sortByDue, withCum, List.insertionSort, List.orderedInsert]
  · intro hpre
    have h1 : (split [⟨1, 1, 1, 0, 0, 0, 5⟩, ⟨2, 1, 2, 0, 0, 0, -5⟩] 0 common_id).1.map
        TRow.row = [⟨2, 1, 2, 0, 0, 0, -5⟩] := by
      norm_num [split, sortByDue, withCum, List.insertionSort, List.orderedInsert]
    have h2 : sortByDue [⟨1, 1, 1, 0, 0, 0, 5⟩, ⟨2, 1, 2, 0, 0, 0, -5⟩] =
        [⟨1, 1, 1, 0, 0, 0, 5⟩, ⟨2, 1, 2, 0, 0, 0, -5⟩] := by
      norm_num [sortByDue, List.insertionSort, List.orderedInsert]
    rw [h1, h2] at hpre
    obtain ⟨t, ht⟩ := hpre
    simp at ht

/-- C1 (witness): the amended waterfall theorem instantiated at the
single-row scope `(due 0, Total 3)` with payment amount 5. -/

theorem split_waterfall_spec_witness :
    ((split [⟨1, 1, 0, 2, 1, 0, 3⟩] 5 9).1.map (fun t => t.row.total)).sum +
        (split [⟨1, 1, 0, 2, 1, 0, 3⟩] 5 9).2.2 = 5 ∧
    0 ≤ (split [⟨1, 1, 0, 2, 1, 0, 3⟩] 5 9).2.2 ∧
    ((split [⟨1, 1, 0, 2, 1, 0, 3⟩] 5 9).1.map TRow.row) ++
        (split [⟨1, 1, 0, 2, 1, 0, 3⟩] 5 9).2.1 = sortByDue [⟨1, 1, 0, 2, 1, 0, 3⟩] ∧
    ((split [⟨1, 1, 0, 2, 1, 0, 3⟩] 5 9).1.map TRow.row) <+:
        sortByDue [⟨1, 1, 0, 2, 1, 0, 3⟩] ∧
    (∀ t ∈ (split [⟨1, 1, 0, 2, 1, 0, 3⟩] 5 9).1, t.typeId = 9) ∧
    (∀ r ∈ (split [⟨1, 1, 0, 2, 1, 0, 3⟩] 5 9).2.1, r ∈ [⟨1, 1, 0, 2, 1, 0, 3⟩]) :=
  split_waterfall_spec [⟨1, 1, 0, 2, 1, 0, 3⟩] 5 9
    (by intro r hr; simp at hr; subst hr; norm_num) (by norm_num)

/-- C2: `first_inst` on a non-empty remaining set whose first row is the
earliest-due one allocates only to that first row: with surplus `s ≠ 0` it
returns exactly one row, whose Total is exactly `s` and whose Capital never
exceeds the scheduled Capital; if `s` is below the scheduled Capital the row
is `(Capital s, Interest 0, IVA 0, Total s)`, otherwise Capital is the full
scheduled Capital, Interest is `(s - Capital)/1.21` and IVA the remainder
`s - (Capital + Interest)`; with surplus `0` the result is empty. -/

theorem first_inst_spec (r : InstRow) (rest : List InstRow) (s : ℚ) (tid : ℕ)
    (hdue : ∀ x ∈ rest, r.dueDate ≤ x.dueDate) (hs : s ≠ 0) :
    ∃ r' : InstRow,
      first_inst (r :: rest) s tid = [{ row := r', typeId := tid }] ∧
      r'.total = s ∧
      r'.capital ≤ r.capital ∧
      r'.id = r.id ∧ r'.creditId = r.creditId ∧ r'.dueDate = r.dueDate ∧
      (s < r.capital →
        r' = { r with capital := s, interest := 0, iva := 0, total := s }) ∧
      (r.capital ≤ s →
        r'.capital = r.capital ∧ r'.interest = (s - r.capital) / 1.21 ∧
        r'.iva = s - (r.capital + r'.interest) ∧ r'.total = s) ∧
      first_inst (r :: rest) 0 tid = [] := by
  by_cases hc : s < r.capital
  · refine ⟨{ r with capital := s, interest := 0, iva := 0, total := s },
      ?_, rfl, le_of_lt hc, rfl, rfl, rfl, fun _ => rfl,
      fun hle => absurd hle (not_le.mpr hc), by simp [first_inst]⟩
    simp only [first_inst]
    rw [if_neg hs, if_pos hc, if_neg hs]
  · push_neg at hc
    refine ⟨{ r with interest := (s - r.capital) / 1.21, iva := s - (r.capital + (s - r.capital) / 1.21), total := s },
      ?_, rfl, le_refl _, rfl, rfl, rfl,
      fun hlt => absurd hlt (not_lt.mpr hc),
      fun _ => ⟨rfl, rfl, rfl, rfl⟩, by simp [first_inst]⟩
    simp only [first_inst]
    rw [if_neg hs, if_neg (not_lt.mpr hc), if_neg hs]

/-- C2 (witness): `first_inst` applied to the single remaining installment
`(Capital 200, Total 212)` with surplus 50 (below the scheduled Capital). -/

theorem first_inst_spec_witness :
    ∃ r' : InstRow,
      first_inst [⟨3, 1, 2, 200, 10, 2, 212⟩] 50 common_id =
        [{ row := r', typeId := common_id }] ∧
      r'.total = 50 ∧
      r'.capital ≤ (⟨3, 1, 2, 200, 10, 2, 212⟩ : InstRow).capital ∧
      r'.id = 3 ∧ r'.creditId = 1 ∧ r'.dueDate = 2 ∧
      ((50 : ℚ) < 200 →
        r' = ⟨3, 1, 2, 50, 0, 0, 50⟩) ∧
      ((200 : ℚ) ≤ 50 →
        r'.capital = 200 ∧ r'.interest = (50 - 200) / 1.21 ∧
        r'.iva = 50 - (200 + r'.interest) ∧ r'.total = 50) ∧
      first_inst [⟨3, 1, 2, 200, 10, 2, 212⟩] 0 common_id = [] :=
  first_inst_spec ⟨3, 1, 2, 200, 10, 2, 212⟩ [] 50 common_id (by simp) (by norm_num)

example :
    first_inst [⟨3, 1, 2, 200, 10, 2, 212⟩] 50 common_id =
      [⟨⟨3, 1, 2, 50, 0, 0, 50⟩, common_id⟩] := by
  norm_num [first_inst]

example :
    first_inst [⟨3, 1, 2, 200, 10, 2, 212⟩] 300 common_id =
      [⟨⟨3, 1, 2, 200, 100 / 1.21, 300 - (200 + 100 / 1.21), 300⟩, common_id⟩] := by
  norm_num [first_inst]

/-- An element of `l.zip (l.map f)` pairs each element with its image. -/
lemma mem_zip_map {α β : Type} (f : α → β) (l : List α) :
    ∀ p ∈ l.zip (l.map f), p.2 = f p.1 := by
  induction l with
  | nil => simp
  | cons a l ih =>
    intro p hp
    simp only [List.map_cons, List.zip_cons_cons, List.mem_cons] at hp
    rcases hp with hp | hp
    · rw [hp]
    · exact ih p hp

/-- C3 (amended): the advance adjustment zeroes Interest and IVA on every
not-yet-due installment (due date ≥ reference date at credit level, strictly
later at document level) and sets its Total to its Capital; an already-due
installment keeps its Capital, Interest, IVA (and identity fields)
unchanged, but its Total is also recomputed as Capital + Interest + IVA —
a no-op exactly when the row already satisfied
`Total = Capital + Interest + IVA`. -/
theorem zero_future_spec (strict : Bool) (date : ℤ) (rows : List InstRow) :
    (zero_future strict date rows).length = rows.length ∧
    ∀ p ∈ rows.zip (zero_future strict date rows),
      (not_yet_due strict date p.1 = true →
        p.2 = { p.1 with interest := 0, iva := 0, total := p.1.capital }) ∧
      (not_yet_due strict date p.1 = false →
        p.2.capital = p.1.capital ∧ p.2.interest = p.1.interest ∧
        p.2.iva = p.1.iva ∧ p.2.dueDate = p.1.dueDate ∧ p.2.id = p.1.id ∧
        p.2.total = p.1.capital + p.1.interest + p.1.iva ∧
        (p.1.total = p.1.capital + p.1.interest + p.1.iva → p.2 = p.1)) := by
  constructor
  · simp [zero_future]
  · intro p hp
    have h2 := mem_zip_map (fun r : InstRow =>
      let r1 : InstRow := if not_yet_due strict date r then { r with interest := 0, iva := 0 } else r
      ({ r1 with total := r1.capital + r1.interest + r1.iva } : InstRow)) rows p hp
    constructor
    · intro hnd
      rw [h2]
      simp [hnd]
    · intro hnd
      have hF : p.2 = { p.1 with total := p.1.capital + p.1.interest + p.1.iva } := by
        rw [h2]; simp [hnd]
      rw [hF]
      refine ⟨rfl, rfl, rfl, rfl, rfl, rfl, fun ht => ?_⟩
      rw [← ht]

/-- C3 (counterexample): the claim as stated is false.  The installment
`(due 0, Capital 1, Interest 0, IVA 0, Total 2)` is already due at reference
date 10, yet the credit-level advance adjustment changes it (its Total is
recomputed to `Capital + Interest + IVA = 1 ≠ 2`), refuting "installments
already due keep their fields unchanged". -/
theorem zero_future_claim_counterexample :
    ((⟨1, 1, 0, 1, 0, 0, 2⟩ : InstRow).dueDate < 10) ∧
    zero_future false 10 [⟨1, 1, 0, 1, 0, 0, 2⟩] ≠ [⟨1, 1, 0, 1, 0, 0, 2⟩] := by
  constructor
  · decide
  · norm_num [zero_future, not_yet_due]

/-- C3 (witness): the amended theorem instantiated at the not-yet-due
installment `(due 7, Capital 3, Interest 2, IVA 1, Total 6)` with reference
date 5 at credit level. -/
theorem zero_future_spec_witness :
    (not_yet_due false 5 (⟨1, 1, 7, 3, 2, 1, 6⟩ : InstRow) = true →
      ((⟨1, 1, 7, 3, 0, 0, 3⟩ : InstRow) =
        { (⟨1, 1, 7, 3, 2, 1, 6⟩ : InstRow) with interest := 0, iva := 0, total := (⟨1, 1, 7, 3, 2, 1, 6⟩ : InstRow).capital })) ∧
    (not_yet_due false 5 (⟨1, 1, 7, 3, 2, 1, 6⟩ : InstRow) = false →
      (⟨1, 1, 7, 3, 0, 0, 3⟩ : InstRow).capital =
          (⟨1, 1, 7, 3, 2, 1, 6⟩ : InstRow).capital ∧
        (⟨1, 1, 7, 3, 0, 0, 3⟩ : InstRow).interest =
          (⟨1, 1, 7, 3, 2, 1, 6⟩ : InstRow).interest ∧
        (⟨1, 1, 7, 3, 0, 0, 3⟩ : InstRow).iva =
          (⟨1, 1, 7, 3, 2, 1, 6⟩ : InstRow).iva ∧
        (⟨1, 1, 7, 3, 0, 0, 3⟩ : InstRow).dueDate =
          (⟨1, 1, 7, 3, 2, 1, 6⟩ : InstRow).dueDate ∧
        (⟨1, 1, 7, 3, 0, 0, 3⟩ : InstRow).id = (⟨1, 1, 7, 3, 2, 1, 6⟩ : InstRow).id ∧
        (⟨1, 1, 7, 3, 0, 0, 3⟩ : InstRow).total =
          (⟨1, 1, 7, 3, 2, 1, 6⟩ : InstRow).capital +
            (⟨1, 1, 7, 3, 2, 1, 6⟩ : InstRow).interest +
            (⟨1, 1, 7, 3, 2, 1, 6⟩ : InstRow).iva ∧
        ((⟨1, 1, 7, 3, 2, 1, 6⟩ : InstRow).total =
            (⟨1, 1, 7, 3, 2, 1, 6⟩ : InstRow).capital +
              (⟨1, 1, 7, 3, 2, 1, 6⟩ : InstRow).interest +
              (⟨1, 1, 7, 3, 2, 1, 6⟩ : InstRow).iva →
          (⟨1, 1, 7, 3, 0, 0, 3⟩ : InstRow) = (⟨1, 1, 7, 3, 2, 1, 6⟩ : InstRow))) :=
  (zero_future_spec false 5 [⟨1, 1, 7, 3, 2, 1, 6⟩]).2
    (⟨1, 1, 7, 3, 2, 1, 6⟩, ⟨1, 1, 7, 3, 0, 0, 3⟩)
    (by norm_num [zero_future, not_yet_due])

/-- C8 (amended): the rounding reconciler creates one dust-clearing entry
exactly for the installments whose remaining Total is nonzero and SIGNED
Total is below 0.1 (`Total < 0.1`, not `|Total| < 0.1`: negative residuals
of any magnitude are also selected). -/
theorem round_balance_spec (rows : List InstRow) (date : ℤ) :
    round_balance rows date =
      (rows.filter (fun r => decide (r.total ≠ 0 ∧ r.total < 0.1))).map
        (fun r => { instId := r.id, date := date, typeId := round_id,
                    capital := r.capital, interest := r.interest, iva := r.iva,
                    total := r.total }) := by
  unfold round_balance
  congr 1
  apply List.filter_congr
  intro r _
  simp [abs_ne_zero]

/-- C8 (counterexample): the claim as stated is false.  An installment with
remaining Total `-5` has `|Total| = 5 ≥ 0.1`, so by the claim it must
receive no rounding entry, yet `round_balance` creates one for it (the code
compares the signed Total against 0.1). -/
theorem round_balance_claim_counterexample :
    round_balance [⟨1, 1, 0, 0, 0, 0, -5⟩] 3 =
      [{ instId := 1, date := 3, typeId := round_id, capital := 0, interest := 0,
         iva := 0, total := -5 }] ∧
    ¬ (|(-5 : ℚ)| < 0.1) := by
  constructor
  · norm_num [round_balance]
  · rw [abs_of_nonpos (by norm_num)]
    norm_num

/-- Filtering distributes over `flatMap`. -/
lemma filter_flatMap {α β : Type} (l : List α) (g : α → List β) (p : β → Bool) :
    (l.flatMap g).filter p = l.flatMap (fun a => (g a).filter p) := by
  induction l with
  | nil => rfl
  | cons a l ih => simp [List.flatMap_cons, List.filter_append, ih]

/-- `flatMap` of a pointwise-empty function is empty. -/
lemma flatMap_eq_nil_of_all {α β : Type} (l : List α) (g : α → List β)
    (h : ∀ a ∈ l, g a = []) : l.flatMap g = [] := by
  induction l with
  | nil => rfl
  | cons a l ih =>
    simp only [List.flatMap_cons, h a (by simp), List.nil_append]
    exact ih (fun x hx => h x (by simp [hx]))

/-- C4 (amended): when installment `o` occurs exactly once in the
pre-collection snapshot and exactly one advance-typed result row `c`
references it, `build_bonus_rows` emits exactly one bonus row for `o` iff
its remaining Capital (`o.capital - c.capital`) is 0 and its remaining
Interest (`o.interest - c.interest`) is nonzero, and none otherwise; the
emitted row is dated with the triggering payment's date, typed as bonus,
and its Total is the remaining Interest plus the installment's
PRE-COLLECTION IVA (not the leftover IVA: the collected IVA is not
subtracted). -/
theorem build_bonus_rows_spec (df_original : List InstRow) (df_result : List CollRow)
    (advId bonusId : ℕ) (date : ℤ) (o : InstRow) (c : CollRow)
    (ho : df_original.filter (fun r => r.id == o.id) = [o])
    (hc : df_result.filter (fun r => r.typeId == advId && r.instId == o.id) = [c]) :
    (build_bonus_rows df_original df_result advId bonusId date).filter
        (fun b => b.instId == o.id) =
      (if o.capital - c.capital = 0 ∧ o.interest - c.interest ≠ 0 then
        [{ instId := o.id, date := date, typeId := bonusId,
           capital := o.capital - c.capital, interest := o.interest - c.interest,
           iva := o.iva,
           total := (o.capital - c.capital) + (o.interest - c.interest) + o.iva }]
      else []) := by
  have hmain : (df_original.flatMap (fun a =>
      ((df_result.filter (fun c => c.typeId == advId && c.instId == a.id)).map
        (fun c => (a, a.capital - c.capital, a.interest - c.interest))).filter
        (fun x => x.1.id == o.id && decide (x.2.1 = 0 ∧ x.2.2 ≠ 0)))) =
      ([c].map (fun cc => (o, o.capital - cc.capital, o.interest - cc.interest))).filter
        (fun x => decide (x.2.1 = 0 ∧ x.2.2 ≠ 0)) := by
    rw [← hc]
    clear hc
    induction df_original with
    | nil => simp at ho
    | cons a l ih =>
      rw [List.filter_cons] at ho
      by_cases ha : (a.id == o.id) = true
      · rw [if_pos ha] at ho
        have ha2 : a = o := (List.cons_eq_cons.mp ho).1
        have hl : l.filter (fun r => r.id == o.id) = [] :=
          (List.cons_eq_cons.mp ho).2
        have hrest : (l.flatMap (fun a =>
            ((df_result.filter (fun c => c.typeId == advId && c.instId == a.id)).map
              (fun c => (a, a.capital - c.capital, a.interest - c.interest))).filter
              (fun x => x.1.id == o.id && decide (x.2.1 = 0 ∧ x.2.2 ≠ 0)))) = [] := by
          apply flatMap_eq_nil_of_all
          intro b hb
          rw [List.filter_eq_nil_iff]
          intro x hx
          have hxb : x.1 = b := by
            obtain ⟨cc, _, hcc⟩ := List.mem_map.mp hx
            rw [← hcc]
          have hbid : (b.id == o.id) = false :=
            Bool.eq_false_iff.mpr (List.filter_eq_nil_iff.mp hl b hb)
          rw [hxb, hbid]
          simp
        rw [List.flatMap_cons, ha2, hrest, List.append_nil]
        apply List.filter_congr
        intro x hx
        have hxa : x.1 = o := by
          obtain ⟨cc, _, hcc⟩ := List.mem_map.mp hx
          rw [← hcc]
        rw [hxa]
        simp
      · rw [if_neg ha] at ho
        have hnil : ((df_result.filter
            (fun c => c.typeId == advId && c.instId == a.id)).map
            (fun c => (a, a.capital - c.capital, a.interest - c.interest))).filter
            (fun x => x.1.id == o.id && decide (x.2.1 = 0 ∧ x.2.2 ≠ 0)) = [] := by
          rw [List.filter_eq_nil_iff]
          intro x hx
          have hxa : x.1 = a := by
            obtain ⟨cc, _, hcc⟩ := List.mem_map.mp hx
            rw [← hcc]
          rw [hxa, Bool.eq_false_iff.mpr ha]
          simp
        rw [List.flatMap_cons, hnil, List.nil_append]
        exact ih ho
  unfold build_bonus_rows
  rw [List.filter_map, List.filter_filter, filter_flatMap]
  have h2 := congrArg (List.map (fun x : InstRow × ℚ × ℚ =>
      ({ instId := x.1.id, date := date, typeId := bonusId, capital := x.2.1,
         interest := x.2.2, iva := x.1.iva,
         total := x.2.1 + x.2.2 + x.1.iva } : CollRow))) hmain
  refine h2.trans ?_
  by_cases hq : (o.capital - c.capital = 0 ∧ o.interest - c.interest ≠ 0)
  · rw [if_pos hq]
    simp [hq]
  · rw [if_neg hq]
    simp [hq]

/-- C4 (counterexample): the claim as stated is false.  Pre-collection
installment `(Capital 100, Interest 50, IVA 10)` with a single advance
result row collecting `(Capital 100, Interest 30, IVA 5)` has remaining
Capital 0 and remaining Interest 20, so a bonus row is emitted — but its
Total is `20 + 10 = 30` (remaining Interest plus ORIGINAL IVA), not the
claim's leftover Interest plus leftover Tax `20 + (10 - 5) = 25`. -/
theorem build_bonus_rows_claim_counterexample :
    build_bonus_rows [⟨1, 1, 0, 100, 50, 10, 160⟩] [⟨1, 0, 2, 100, 30, 5, 135⟩]
        2 5 9 = [⟨1, 9, 5, 0, 20, 10, 30⟩] ∧
    ((0 : ℚ) + 20 + 10 ≠ (100 - 100) + (50 - 30) + (10 - 5)) := by
  constructor
  · norm_num [build_bonus_rows, List.flatMap_cons, List.filter_cons]
  · norm_num

/-- C4 (witness): the amended theorem instantiated at the counterexample's
single-installment snapshot. -/
theorem build_bonus_rows_spec_witness :
    (build_bonus_rows [⟨1, 1, 0, 100, 50, 10, 160⟩] [⟨1, 0, 2, 100, 30, 5, 135⟩]
        2 5 9).filter (fun b => b.instId == (1 : ℕ)) =
      (if (100 : ℚ) - 100 = 0 ∧ (50 : ℚ) - 30 ≠ 0 then
        [{ instId := 1, date := 9, typeId := 5, capital := (100 : ℚ) - 100,
           interest := (50 : ℚ) - 30, iva := 10,
           total := ((100 : ℚ) - 100) + ((50 : ℚ) - 30) + 10 }]
      else []) :=
  build_bonus_rows_spec [⟨1, 1, 0, 100, 50, 10, 160⟩] [⟨1, 0, 2, 100, 30, 5, 135⟩]
    2 5 9 ⟨1, 1, 0, 100, 50, 10, 160⟩ ⟨1, 0, 2, 100, 30, 5, 135⟩
    (by norm_num [List.filter_cons]) (by norm_num [List.filter_cons])

/-- C7: schedule generation is idempotent.  If exactly one stored row
matches `(Credit_ID, i)`, generation returns that row's ID and leaves the
table unchanged; if more than one matches, it fails with the fatal
data-inconsistency error; if none matches, it appends exactly one row, and
generating again for the same pair returns that row's ID with the table
unchanged — so calling generation twice yields exactly one stored
installment for the pair. -/
theorem installment_init_idempotent (table : List StoredInst) (creditId i : ℕ)
    (d : InstData) :
    (∀ m : StoredInst, table.filter (inst_matches creditId i) = [m] →
      installment_init table creditId i d = .ok (m.id, table)) ∧
    (2 ≤ (table.filter (inst_matches creditId i)).length →
      installment_init table creditId i d =
        .error "Multiple installments found in database") ∧
    (table.filter (inst_matches creditId i) = [] →
      installment_init table creditId i d =
        .ok (maxId table + 1, table ++ [⟨maxId table + 1, creditId, i, d⟩]) ∧
      (table ++ [(⟨maxId table + 1, creditId, i, d⟩ : StoredInst)]).filter
        (inst_matches creditId i) = [⟨maxId table + 1, creditId, i, d⟩] ∧
      installment_init (table ++ [⟨maxId table + 1, creditId, i, d⟩]) creditId i d =
        .ok (maxId table + 1, table ++ [⟨maxId table + 1, creditId, i, d⟩])) := by
  refine ⟨?_, ?_, ?_⟩
  · intro m hm
    simp [installment_init, hm]
  · intro hlen
    rcases hEx : table.filter (inst_matches creditId i) with _ | ⟨a, _ | ⟨b, rest⟩⟩
    · rw [hEx] at hlen; simp at hlen
    · rw [hEx] at hlen; simp at hlen
    · simp [installment_init, hEx]
  · intro h
    have hfil : (table ++ [(⟨maxId table + 1, creditId, i, d⟩ : StoredInst)]).filter
        (inst_matches creditId i) = [⟨maxId table + 1, creditId, i, d⟩] := by
      rw [List.filter_append, h, List.nil_append]
      simp [inst_matches]
    refine ⟨by simp [installment_init, h], hfil, by simp [installment_init, hfil]⟩

/-- C7 (witness): the idempotence theorem instantiated on the empty table
for the pair `(Credit 7, installment 1)`: the first call appends the row
with ID 1, after which exactly one row matches and the second call returns
it unchanged. -/
theorem installment_init_idempotent_witness :
    installment_init [] 7 1 ⟨1, 0, 10, 2, 1, 13⟩ =
      .ok (1, [⟨1, 7, 1, ⟨1, 0, 10, 2, 1, 13⟩⟩]) ∧
    ([] ++ [(⟨1, 7, 1, ⟨1, 0, 10, 2, 1, 13⟩⟩ : StoredInst)]).filter
      (inst_matches 7 1) = [⟨1, 7, 1, ⟨1, 0, 10, 2, 1, 13⟩⟩] ∧
    installment_init [⟨1, 7, 1, ⟨1, 0, 10, 2, 1, 13⟩⟩] 7 1 ⟨1, 0, 10, 2, 1, 13⟩ =
      .ok (1, [⟨1, 7, 1, ⟨1, 0, 10, 2, 1, 13⟩⟩]) :=
  (installment_init_idempotent [] 7 1 ⟨1, 0, 10, 2, 1, 13⟩).2.2 rfl

/-- Folding `Nat.max` with an arbitrary seed. -/
lemma foldr_max_init (l : List ℕ) : ∀ b : ℕ,
    l.foldr Nat.max b = Nat.max (l.foldr Nat.max 0) b := by
  induction l with
  | nil => intro b; simp
  | cons a l ih => intro b; simp [List.foldr_cons, ih b, Nat.max_assoc]

/-- Appending one row to the table takes the maximum of the indices. -/
lemma maxId_append_one (t : List StoredInst) (s : StoredInst) :
    maxId (t ++ [s]) = Nat.max (maxId t) s.id := by
  unfold maxId
  rw [List.map_append, List.foldr_append, foldr_max_init]
  simp

/-- Running the generation loop over distinct installment numbers that are
all absent from the table appends exactly the auto-incremented rows and
raises the table's maximum index by the number of rows created. -/
lemma gen_insts_fresh (creditId : ℕ) (mk : ℕ → InstData) (nums : List ℕ) :
    ∀ (t : List StoredInst), nums.Nodup →
    (∀ j ∈ nums, t.filter (inst_matches creditId j) = []) →
    gen_insts creditId mk nums t =
      .ok ((buildRows creditId mk (maxId t) nums).map (fun s => s.id),
           t ++ buildRows creditId mk (maxId t) nums) ∧
    maxId (t ++ buildRows creditId mk (maxId t) nums) = maxId t + nums.length := by
  induction nums with
  | nil => intro t _ _; exact ⟨by simp [gen_insts, buildRows], by simp [buildRows]⟩
  | cons i rest ih =>
    intro t hnd h
    obtain ⟨hnotin, hnd2⟩ := List.nodup_cons.mp hnd
    have hhead := h i (by simp)
    have hinit : installment_init t creditId i (mk i) =
        .ok (maxId t + 1, t ++ [⟨maxId t + 1, creditId, i, mk i⟩]) := by
      simp [installment_init, hhead]
    have hmax1 : maxId (t ++ [(⟨maxId t + 1, creditId, i, mk i⟩ : StoredInst)]) =
        maxId t + 1 := by
      rw [maxId_append_one]
      exact Nat.max_eq_right (Nat.le_succ _)
    have hrest : ∀ j ∈ rest,
        (t ++ [(⟨maxId t + 1, creditId, i, mk i⟩ : StoredInst)]).filter
          (inst_matches creditId j) = [] := by
      intro j hj
      rw [List.filter_append, h j (by simp [hj]), List.nil_append]
      have hij : i ≠ j := fun hij => hnotin (hij ▸ hj)
      simp [inst_matches, hij]
    obtain ⟨hrec1, hrec2⟩ := ih (t ++ [⟨maxId t + 1, creditId, i, mk i⟩]) hnd2 hrest
    rw [hmax1] at hrec1 hrec2
    have hsplit : t ++ buildRows creditId mk (maxId t) (i :: rest) =
        (t ++ [(⟨maxId t + 1, creditId, i, mk i⟩ : StoredInst)]) ++
          buildRows creditId mk (maxId t + 1) rest := by
      simp [buildRows, List.append_assoc]
    constructor
    · simp only [gen_insts, hinit, hrec1, buildRows, List.map_cons]
      simp [List.append_assoc]
    · rw [hsplit, hrec2]
      simp only [List.length_cons]
      omega

/-- C10: every row of the DataFrame returned by the penalty synthesizer is
assigned the same ID, equal to the maximum index of the installments table
as read after the penalty credit's installments were persisted; when the
penalty credit has more than one installment, its first installment's
stored row has a smaller index, so the returned rows do not reference it
(all of them reference the single highest-numbered installment). -/
theorem penalty_new_gen_spec (instTable : List StoredInst) (penCreditId : ℕ)
    (amount : ℚ) (first_due : ℤ) (term : ℕ)
    (hfresh : ∀ s ∈ instTable, s.creditId ≠ penCreditId) (hterm : 1 ≤ term) :
    ∃ rows t',
      penalty_new_gen instTable penCreditId amount first_due term = .ok (rows, t') ∧
      rows.length = term ∧
      (∀ p ∈ rows, p.id = maxId t') ∧
      maxId t' = maxId instTable + term ∧
      t' = instTable ++ buildRows penCreditId (fun i => inst_penalty amount i first_due)
        (maxId instTable) (List.range' 1 term) ∧
      (2 ≤ term → ∃ s ∈ t', s.creditId = penCreditId ∧ s.instNum = 1 ∧
        s.id ≠ maxId instTable + term) := by
  have hnodup : (List.range' 1 term).Nodup := by
    simpa using List.nodup_range' 1 term
  have hfresh2 : ∀ j ∈ List.range' 1 term,
      instTable.filter (inst_matches penCreditId j) = [] := by
    intro j _
    rw [List.filter_eq_nil_iff]
    intro s hs
    simp only [inst_matches, Bool.and_eq_true, beq_iff_eq, not_and]
    intro hcred
    exact absurd hcred (hfresh s hs)
  obtain ⟨h1, h2⟩ := gen_insts_fresh penCreditId
    (fun i => inst_penalty amount i first_due) (List.range' 1 term)
    instTable hnodup hfresh2
  refine ⟨(List.range' 1 term).map (fun i =>
      ({ id := maxId (instTable ++ buildRows penCreditId
            (fun i => inst_penalty amount i first_due) (maxId instTable)
            (List.range' 1 term)),
          creditId := penCreditId, instNum := i,
          data := inst_penalty amount i first_due, typeId := penalty_id } : PenRow)),
    instTable ++ buildRows penCreditId (fun i => inst_penalty amount i first_due)
      (maxId instTable) (List.range' 1 term),
    by simp [penalty_new_gen, h1], by simp, ?_, ?_, rfl, ?_⟩
  · intro p hp
    obtain ⟨j, _, hj⟩ := List.mem_map.mp hp
    rw [← hj]
  · rw [h2]
    simp
  · intro h2le
    obtain ⟨k, rfl⟩ : ∃ k, term = k + 2 := ⟨term - 2, by omega⟩
    refine ⟨⟨maxId instTable + 1, penCreditId, 1,
        inst_penalty amount 1 first_due⟩, ?_, rfl, rfl, by simp⟩
    apply List.mem_append_right
    have : List.range' 1 (k + 2) = 1 :: List.range' 2 (k + 1) := rfl
    rw [this]
    simp [buildRows]

/-- C10 (witness): the penalty synthesizer run on an empty installments
table with a two-installment penalty credit. -/
theorem penalty_new_gen_spec_witness :
    ∃ rows t',
      penalty_new_gen [] 5 121 0 2 = .ok (rows, t') ∧
      rows.length = 2 ∧
      (∀ p ∈ rows, p.id = maxId t') ∧
      maxId t' = maxId [] + 2 ∧
      t' = [] ++ buildRows 5 (fun i => inst_penalty 121 i 0) (maxId [])
        (List.range' 1 2) ∧
      (2 ≤ 2 → ∃ s ∈ t', s.creditId = 5 ∧ s.instNum = 1 ∧
        s.id ≠ maxId [] + 2) :=
  penalty_new_gen_spec [] 5 121 0 2 (by simp) (by norm_num)

/-- C5: evaluation at the failing input.  A common collection on a credit
with one pending installment of Total 100 and a payment of 150 (with
persistence enabled) has surplus 50, but the synthesized penalty is created
for the FULL payment amount 150: `penalty.new` is invoked with 150 and the
persisted penalty collection row has Total 150, not the surplus 50 the
specification requires (`advance.py` correctly passes the surplus). -/
theorem common_credit_penalty_amount_bug :
    (common_credit [⟨4, 1, 0, 80, 15, 5, 100⟩] 150 10 true [] 9).penaltyArg =
      some 150 ∧
    (split ([⟨4, 1, 0, 80, 15, 5, 100⟩].filter (fun r => decide (0 < r.total)))
      150 common_id).2.2 = 50 ∧
    (150 : ℚ) ≠ 50 ∧
    (common_credit [⟨4, 1, 0, 80, 15, 5, 100⟩] 150 10 true [] 9).result =
      .ok [⟨4, 10, common_id, 80, 15, 5, 100⟩,
           ⟨1, 10, penalty_id, 0, 150 / 1.21, 150 - 150 / 1.21, 150⟩] := by
  refine ⟨?_, ?_, by norm_num, ?_⟩
  · norm_num [common_credit, split, sortByDue, withCum, List.insertionSort,
      List.orderedInsert, penalty_new, penalty_new_gen, gen_insts,
      installment_init, inst_matches, maxId, basic_formatting, penCollRows,
      first_inst]
  · norm_num [split, sortByDue, withCum, List.insertionSort, List.orderedInsert]
  · norm_num [common_credit, split, sortByDue, withCum, List.insertionSort,
      List.orderedInsert, penalty_new, penalty_new_gen, gen_insts,
      installment_init, inst_matches, maxId, basic_formatting, penCollRows,
      first_inst, inst_penalty, penalty_id, common_id]

/-- C6: evaluation at the failing input.  The same scenario with persistence
disabled prints the warning naming the surplus 50 but then raises a
`KeyError` instead of returning the fully-covered rows: the warning branch
of `common.py` never reassigns `df` to `df_up`, so the raw balance scope
(without a `Type_ID` column) reaches `basic_formatting`'s canonical column
selection (`advance.py`'s parallel branch does `df = df_up.copy()`). -/
theorem common_credit_surplus_no_save_keyerror :
    common_credit [⟨4, 1, 0, 80, 15, 5, 100⟩] 150 10 false [] 9 =
      { result := .error "KeyError: Type_ID", penaltyArg := none,
        warning := some 50 } := by
  norm_num [common_credit, split, sortByDue, withCum, List.insertionSort,
    List.orderedInsert]

/-- Pointwise sums split over a map. -/
lemma sum_map_add (l : List ℕ) (f g : ℕ → ℚ) :
    (l.map (fun x => f x + g x)).sum = (l.map f).sum + (l.map g).sum := by
  induction l with
  | nil => simp
  | cons a l ih => simp [ih]; ring

/-- An indicator sum over keys not containing the key is zero. -/
lemma sum_if_zero (keys : List ℕ) (c : ℕ) (v : ℚ) (h : c ∉ keys) :
    (keys.map (fun k => if c = k then v else 0)).sum = 0 := by
  induction keys with
  | nil => rfl
  | cons k0 ks ih =>
    have hk0 : ¬ c = k0 := fun hc => h (by simp [hc])
    simp only [List.map_cons, List.sum_cons, if_neg hk0]
    rw [ih (fun hc => h (by simp [hc]))]
    ring

/-- An indicator sum over duplicate-free keys containing the key once is
the indicated value. -/
lemma sum_if_single (keys : List ℕ) (hnd : keys.Nodup) (c : ℕ) (hc : c ∈ keys)
    (v : ℚ) : (keys.map (fun k => if c = k then v else 0)).sum = v := by
  induction keys with
  | nil => simp at hc
  | cons k0 ks ih =>
    obtain ⟨hnotin, hnd2⟩ := List.nodup_cons.mp hnd
    by_cases h : c = k0
    · simp only [List.map_cons, List.sum_cons, if_pos h]
      rw [sum_if_zero ks c v (h ▸ hnotin)]
      ring
    · have hc2 : c ∈ ks := by
        rcases List.mem_cons.mp hc with h1 | h1
        · exact absurd h1 h
        · exact h1
      simp only [List.map_cons, List.sum_cons, if_neg h]
      rw [ih hnd2 hc2]
      ring

/-- Adding a row to a frame adds its Total to exactly its own group. -/
lemma groupTotal_cons (t : TRow) (l : List TRow) (k : ℕ) :
    groupTotal (t :: l) k =
      (if t.row.creditId = k then t.row.total else 0) + groupTotal l k := by
  unfold groupTotal
  rw [List.filter_cons]
  by_cases h : t.row.creditId = k
  · simp [h]
  · simp [h]

/-- Group sums over a duplicate-free covering key set add up to the total
sum. -/
lemma sum_groupTotal (keys : List ℕ) (hnd : keys.Nodup) :
    ∀ l : List TRow, (∀ t ∈ l, t.row.creditId ∈ keys) →
    (keys.map (fun k => groupTotal l k)).sum = (l.map (fun t => t.row.total)).sum := by
  intro l
  induction l with
  | nil =>
    intro _
    have : (keys.map (fun k => groupTotal ([] : List TRow) k)) =
        keys.map (fun _ => (0 : ℚ)) := by
      apply List.map_congr_left
      intro a _
      rfl
    simp [this]
  | cons t l ih =>
    intro hcov
    have h1 : keys.map (fun k => groupTotal (t :: l) k) =
        keys.map (fun k => (if t.row.creditId = k then t.row.total else 0) +
          groupTotal l k) := by
      apply List.map_congr_left
      intro a _
      exact groupTotal_cons t l a
    rw [h1, sum_map_add, ih (fun x hx => hcov x (by simp [hx])),
      sum_if_single keys hnd t.row.creditId (hcov t (by simp)) t.row.total]
    simp

/-- The aggregated per-credit totals sum to the frame's total. -/
lemma agg_sum_eq (l : List TRow) :
    ((groupKeys l).map (fun k => groupTotal l k)).sum =
      (l.map (fun t => t.row.total)).sum :=
  sum_groupTotal (groupKeys l) (List.nodup_dedup _) l
    (fun t ht => List.mem_dedup.mpr (List.mem_map_of_mem _ ht))

/-- The partial row produced by `first_inst` on a nonempty remainder with a
nonzero surplus carries exactly the surplus as Total. -/
lemma first_inst_sum (df_down : List InstRow) (s : ℚ) (tid : ℕ) (hs : s ≠ 0)
    (hne : df_down ≠ []) :
    ((first_inst df_down s tid).map (fun t => t.row.total)).sum = s := by
  rcases df_down with _ | ⟨r, rest⟩
  · exact absurd rfl hne
  · by_cases hc : r.capital > s
    · simp [first_inst, hs, hc]
    · simp [first_inst, hs, hc]

/-- When remaining installments exist, the covered rows plus the partial
row absorb the whole payment amount. -/
lemma rows_sum_amount (df : List InstRow) (amount : ℚ) (tid : ℕ)
    (hne : (split df amount tid).2.1 ≠ []) :
    (((split df amount tid).1 ++ first_inst (split df amount tid).2.1
        (split df amount tid).2.2 tid).map (fun t => t.row.total)).sum = amount := by
  have hup : (split df amount tid).2.2 =
      amount - ((split df amount tid).1.map (fun t => t.row.total)).sum := rfl
  rcases hd : (split df amount tid).2.1 with _ | ⟨r, rest⟩
  · exact absurd hd hne
  · rw [List.map_append, List.sum_append]
    by_cases h0 : (split df amount tid).2.2 = 0
    · rw [h0]
      have hz : first_inst (r :: rest) 0 tid = [] := by simp [first_inst]
      rw [hz]
      simp only [List.map_nil, List.sum_nil]
      linarith
    · rw [first_inst_sum (r :: rest) _ tid h0 (by simp)]
      linarith

/-- When no remaining rows exist, the covered rows are the whole sorted
frame (unconditionally: the two outputs of `split` are complementary
filters of the annotated frame). -/
lemma split_down_nil (df : List InstRow) (amount : ℚ) (tid : ℕ)
    (h : (split df amount tid).2.1 = []) :
    (split df amount tid).1.map TRow.row = sortByDue df := by
  have hfil : (withCum 0 (sortByDue df)).filter
      (fun p => !decide (p.2 ≤ amount)) = [] := by
    have h2 : ((withCum 0 (sortByDue df)).filter
        (fun p => !decide (p.2 ≤ amount))).map Prod.fst = [] := h
    exact List.map_eq_nil_iff.mp h2
  have hall : (withCum 0 (sortByDue df)).filter
      (fun p => decide (p.2 ≤ amount)) = withCum 0 (sortByDue df) := by
    rw [List.filter_eq_self]
    intro p hp
    by_contra hnp
    have hmem : p ∈ (withCum 0 (sortByDue df)).filter
        (fun p => !decide (p.2 ≤ amount)) :=
      List.mem_filter.mpr ⟨hp, by simpa using hnp⟩
    rw [hfil] at hmem
    simp at hmem
  have h1 : ((split df amount tid).1.map TRow.row) =
      ((withCum 0 (sortByDue df)).filter (fun p => decide (p.2 ≤ amount))).map
        Prod.fst := by
    simp [split, List.map_map, Function.comp]
  rw [h1, hall, withCum_map_fst]

/-- The advance adjustment never changes the Credit_ID column. -/
lemma zero_future_map_creditId (strict : Bool) (date : ℤ) (rows : List InstRow) :
    (zero_future strict date rows).map InstRow.creditId =
      rows.map InstRow.creditId := by
  unfold zero_future
  rw [List.map_map]
  apply List.map_congr_left
  intro r _
  by_cases h : not_yet_due strict date r
  · simp [Function.comp, h]
  · simp [Function.comp, h]

/-- Every element bounds from below the `Nat.max` fold. -/
lemma le_foldrMax (l : List ℕ) : ∀ x ∈ l, x ≤ l.foldr Nat.max 0 := by
  induction l with
  | nil => simp
  | cons a l ih =>
    intro x hx
    rcases List.mem_cons.mp hx with h | h
    · rw [h]; exact Nat.le_max_left _ _
    · exact le_trans (ih x h) (Nat.le_max_right _ _)

/-- The `Nat.max` fold is bounded by any common upper bound. -/
lemma foldrMax_le (l : List ℕ) (m : ℕ) (h : ∀ x ∈ l, x ≤ m) :
    l.foldr Nat.max 0 ≤ m := by
  induction l with
  | nil => exact Nat.zero_le m
  | cons a l ih =>
    exact Nat.max_le.mpr ⟨h a (by simp), ih (fun x hx => h x (by simp [hx]))⟩

/-- Lists with the same members have the same `Nat.max` fold. -/
lemma foldrMax_eq (l1 l2 : List ℕ) (h : ∀ x, x ∈ l1 ↔ x ∈ l2) :
    l1.foldr Nat.max 0 = l2.foldr Nat.max 0 :=
  le_antisymm (foldrMax_le _ _ (fun x hx => le_foldrMax _ x ((h x).mp hx)))
    (foldrMax_le _ _ (fun x hx => le_foldrMax _ x ((h x).mpr hx)))

/-- A positive recomputed document surplus forces the not-fully-covered set
to be empty (otherwise the covered plus partial rows absorb the whole
amount and the recomputed surplus is zero). -/
lemma doc_down_nil (scope : List InstRow) (isAdvance : Bool) (amount : ℚ)
    (date : ℤ) (h : 0 < doc_surplus2 scope isAdvance amount date) :
    (split (doc_df scope isAdvance date) amount (doc_tid isAdvance)).2.1 = [] := by
  by_contra hne
  have hsum := rows_sum_amount (doc_df scope isAdvance date) amount
    (doc_tid isAdvance) hne
  have hz : doc_surplus2 scope isAdvance amount date = 0 := by
    unfold doc_surplus2 doc_agg
    rw [List.map_map]
    have hcomp : ((fun p : ℕ × ℚ => p.2) ∘ fun k =>
        (k, groupTotal (doc_rowsAll scope isAdvance amount date) k)) = fun k =>
        groupTotal (doc_rowsAll scope isAdvance amount date) k := rfl
    rw [hcomp, agg_sum_eq]
    have hr : doc_rowsAll scope isAdvance amount date =
        (split (doc_df scope isAdvance date) amount (doc_tid isAdvance)).1 ++
          first_inst (split (doc_df scope isAdvance date) amount
            (doc_tid isAdvance)).2.1
            (split (doc_df scope isAdvance date) amount (doc_tid isAdvance)).2.2
            (doc_tid isAdvance) := rfl
    rw [hr, hsum]
    ring
  rw [hz] at h
  exact lt_irrefl 0 h

/-- With no remaining rows, the group keys of the document-level frame are
exactly the Credit_IDs present in the scope. -/
lemma keys_eq_scope (scope : List InstRow) (isAdvance : Bool) (amount : ℚ)
    (date : ℤ)
    (hdown : (split (doc_df scope isAdvance date) amount
      (doc_tid isAdvance)).2.1 = []) :
    ∀ x, x ∈ groupKeys (doc_rowsAll scope isAdvance amount date) ↔
      x ∈ scope.map InstRow.creditId := by
  intro x
  unfold groupKeys
  rw [List.mem_dedup]
  have h1 : doc_rowsAll scope isAdvance amount date =
      (split (doc_df scope isAdvance date) amount (doc_tid isAdvance)).1 := by
    show (split (doc_df scope isAdvance date) amount (doc_tid isAdvance)).1 ++
        first_inst (split (doc_df scope isAdvance date) amount
          (doc_tid isAdvance)).2.1 _ _ = _
    rw [hdown]
    simp [first_inst]
  have h2 : (split (doc_df scope isAdvance date) amount
      (doc_tid isAdvance)).1.map (fun t => t.row.creditId) =
      (sortByDue (doc_df scope isAdvance date)).map InstRow.creditId := by
    have h3 := split_down_nil (doc_df scope isAdvance date) amount
      (doc_tid isAdvance) hdown
    rw [← h3, List.map_map]
    rfl
  rw [h1, h2]
  have hperm : List.Perm ((sortByDue (doc_df scope isAdvance date)).map
      InstRow.creditId) ((doc_df scope isAdvance date).map InstRow.creditId) :=
    (List.perm_insertionSort _ _).map _
  rw [hperm.mem_iff]
  have h4 : (doc_df scope isAdvance date).map InstRow.creditId =
      scope.map InstRow.creditId := by
    unfold doc_df
    cases isAdvance
    · rfl
    · exact zero_future_map_creditId true date scope
  rw [h4]

/-- The Credit_IDs present in the modelled document-level scope are exactly
the eligible credits, provided every eligible credit has a balance row. -/
lemma scope_cids (balanceRows : List InstRow) (eligible : List ℕ)
    (hcover : ∀ c ∈ eligible, ∃ r ∈ balanceRows, r.creditId = c) (x : ℕ) :
    x ∈ (get_client_balance_by_document balanceRows eligible).map
      InstRow.creditId ↔ x ∈ eligible := by
  constructor
  · intro hx
    obtain ⟨r, hr, hrx⟩ := List.mem_map.mp hx
    have h2 := (List.mem_filter.mp hr).2
    rw [← hrx]
    simpa using h2
  · intro hx
    obtain ⟨r, hrB, hrc⟩ := hcover x hx
    exact List.mem_map.mpr ⟨r, List.mem_filter.mpr ⟨hrB, by simp [hrc, hx]⟩, hrc⟩

/-- C9: for the document-level collection (with the per-credit dispatch
abstracted as `collFn` and the payer's balance retrieval modelled from the
spec), whenever the recomputed surplus (payment amount minus the sum of the
per-credit aggregated Totals) is positive, exactly one additional
per-credit call is appended, directed at the credit with the highest
numeric identifier among the payer's eligible credits, with exactly that
surplus; and the concatenated result contains no row whose Total is 0. -/
theorem documents_document_spec (balanceRows : List InstRow) (eligible : List ℕ)
    (isAdvance : Bool) (amount : ℚ) (date : ℤ) (collFn : ℕ → ℚ → List CollRow)
    (hcover : ∀ c ∈ eligible, ∃ r ∈ balanceRows, r.creditId = c) :
    (∀ b ∈ (documents_document (get_client_balance_by_document balanceRows
        eligible) isAdvance amount date collFn).rows, b.total ≠ 0) ∧
    (0 < doc_surplus2 (get_client_balance_by_document balanceRows eligible)
        isAdvance amount date →
      (documents_document (get_client_balance_by_document balanceRows eligible)
          isAdvance amount date collFn).calls =
        doc_agg (get_client_balance_by_document balanceRows eligible) isAdvance
            amount date ++
          [(eligible.foldr Nat.max 0,
            doc_surplus2 (get_client_balance_by_document balanceRows eligible)
              isAdvance amount date)]) := by
  constructor
  · intro b hb
    simp only [documents_document] at hb
    have h2 := (List.mem_filter.mp hb).2
    simpa using h2
  · intro hs2
    have hdown := doc_down_nil (get_client_balance_by_document balanceRows
      eligible) isAdvance amount date hs2
    have hkeys : ∀ x, x ∈ groupKeys (doc_rowsAll
        (get_client_balance_by_document balanceRows eligible) isAdvance amount
        date) ↔ x ∈ eligible := fun x =>
      (keys_eq_scope (get_client_balance_by_document balanceRows eligible)
        isAdvance amount date hdown x).trans
        (scope_cids balanceRows eligible hcover x)
    simp only [documents_document]
    rw [if_pos hs2, foldrMax_eq (groupKeys (doc_rowsAll
      (get_client_balance_by_document balanceRows eligible) isAdvance amount
      date)) eligible hkeys]

/-- C9 (witness): a payer with one eligible credit (ID 1) holding a single
pending installment of Total 10, paid 15 at document level: the recomputed
surplus 5 is sent to credit 1 (the highest eligible identifier) as one
additional call, and no zero-Total row survives the final filter. -/
theorem documents_document_spec_witness :
    (∀ b ∈ (documents_document (get_client_balance_by_document
        [⟨1, 1, 0, 6, 3, 1, 10⟩] [1]) false 15 5
        (fun _ _ => [])).rows, b.total ≠ 0) ∧
    (0 < doc_surplus2 (get_client_balance_by_document [⟨1, 1, 0, 6, 3, 1, 10⟩]
        [1]) false 15 5 →
      (documents_document (get_client_balance_by_document
          [⟨1, 1, 0, 6, 3, 1, 10⟩] [1]) false 15 5 (fun _ _ => [])).calls =
        doc_agg (get_client_balance_by_document [⟨1, 1, 0, 6, 3, 1, 10⟩] [1])
            false 15 5 ++
          [(([1] : List ℕ).foldr Nat.max 0,
            doc_surplus2 (get_client_balance_by_document
              [⟨1, 1, 0, 6, 3, 1, 10⟩] [1]) false 15 5)]) :=
  documents_document_spec [⟨1, 1, 0, 6, 3, 1, 10⟩] [1] false 15 5
    (fun _ _ => []) (by intro c hc; exact ⟨⟨1, 1, 0, 6, 3, 1, 10⟩, by simp,
      by simp at hc; simp [hc]⟩)

end CreditManager
